import Mathlib

/-!
Formal model of the innoextract-android decoder core: the byte-stream
primitives, the Adler-32 rolling checksum (src/crypto/adler32.cpp), the
time utilities (src/util/time.cpp), the PE resource locator
(src/loader/exereader.cpp) and the data_entry decoder (src/setup/data.cpp),
together with proofs about the specified properties.
-/

/-- State of a seekable byte stream: the underlying bytes, the read cursor,
the sticky failure flag of the C++ istream, and a counter of logged
warnings (log_warning calls). -/
structure Strm where
  data : List Nat
  pos : Nat
  failed : Bool
  warnings : Nat
deriving DecidableEq, Repr

/-- Byte of the underlying data at absolute index i. Streams carry bytes,
so values are reduced mod 256 (as the C++ reads produce uint8 values). -/
def Strm.byteAt (s : Strm) (i : Nat) : Nat := s.data.getD i 0 % 256

/-- Read n bytes at the cursor. A read on a failed stream returns filler and
leaves the state; a short read sets the sticky failure flag (the C++ value
is then garbage, but every caller checks the failure flag before using it). -/
def readBytes (n : Nat) (s : Strm) : List Nat × Strm :=
  if s.failed then (List.replicate n 0, s)
  else if s.pos + n ≤ s.data.length then
    ((List.range n).map fun i => s.byteAt (s.pos + i), { s with pos := s.pos + n })
  else (List.replicate n 0, { s with failed := true })

/-- Absolute seek (istream::seekg(p)); a no-op on a failed stream. Seeking a
file stream beyond the end succeeds, only subsequent reads fail. -/
def seekAbs (p : Nat) (s : Strm) : Strm := if s.failed then s else { s with pos := p }

/-- Relative seek (istream::seekg(n, cur)); a no-op on a failed stream. -/
def skip (n : Nat) (s : Strm) : Strm := if s.failed then s else { s with pos := s.pos + n }

/-- One log_warning emission. -/
def warn (s : Strm) : Strm := { s with warnings := s.warnings + 1 }

/-- Little-endian value of a byte list. -/
def leNat : List Nat → Nat
  | [] => 0
  | b :: r => b % 256 + 256 * leNat r

/-- util::load of a little-endian uint16. -/
def loadU16 (s : Strm) : Nat × Strm := let p := readBytes 2 s; (leNat p.1, p.2)

/-- util::load of a little-endian uint32. -/
def loadU32 (s : Strm) : Nat × Strm := let p := readBytes 4 s; (leNat p.1, p.2)

/-- util::load of a little-endian uint64. -/
def loadU64 (s : Strm) : Nat × Strm := let p := readBytes 8 s; (leNat p.1, p.2)

/-- Modelled from the spec (util/load.hpp is not in the sources): the
variable-width load reads a uint16 zero-extended when the version is
16-bit and a uint32 otherwise. -/
def loadVarint (bits : Nat) (s : Strm) : Nat × Strm :=
  if bits = 16 then loadU16 s else loadU32 s

/-! ## Adler-32 (src/Service/jni/innoextract/src/crypto/adler32.cpp)

The working sums live in uint_fast32_t variables; they are modelled as
plain naturals, which is faithful because no intermediate sum ever reaches
2^32 (proved below for the reduced-state invariant). -/

/-- The modulus used by Adler-32. -/
def adlerBase : Nat := 65521

/-- One byte step of the rolling sums without reduction: s1 += b; s2 += s1. -/
def adlerByte (p : Nat × Nat) (b : Nat) : Nat × Nat := (p.1 + b, p.2 + (p.1 + b))

/-- A run of unreduced byte steps. -/
def rawAdler (p : Nat × Nat) (l : List Nat) : Nat × Nat := l.foldl adlerByte p

/-- The conditional subtraction if(s1 >= base) s1 -= base. -/
def csub (x : Nat) : Nat := if adlerBase ≤ x then x - adlerBase else x

/-- The unrolled main loop of crypto::adler32::update: eight unreduced byte
steps, then the conditional subtraction on s1, and s2 %= base whenever the
remaining length is a multiple of 0x8000. Only invoked on lists whose
length is a multiple of 8, as in the source. -/
def adlerMain : Nat → Nat → List Nat → Nat × Nat
  | s1, s2, b0 :: b1 :: b2 :: b3 :: b4 :: b5 :: b6 :: b7 :: rest =>
      let p := rawAdler (s1, s2) [b0, b1, b2, b3, b4, b5, b6, b7]
      adlerMain (csub p.1) (if rest.length % 32768 = 0 then p.2 % adlerBase else p.2) rest
  | s1, s2, _ => (s1, s2)

/-- crypto::adler32::update on the working sums: a catch-up phase of
length % 8 unreduced byte steps followed by one reduction of each sum,
then the unrolled main loop. -/
def adlerCore (s1 s2 : Nat) (l : List Nat) : Nat × Nat :=
  if l.length % 8 = 0 then adlerMain s1 s2 l
  else
    let p := rawAdler (s1, s2) (l.take (l.length % 8))
    adlerMain (csub p.1) (p.2 % adlerBase) (l.drop (l.length % 8))

/-- The two 16-bit state halves of crypto::adler32. -/
structure adler32 where
  s1 : Nat
  s2 : Nat
deriving DecidableEq, Repr

/-- crypto::adler32::update: run the core and store the sums back into the
uint16 state fields. -/
def adler32.update (c : adler32) (l : List Nat) : adler32 :=
  let p := adlerCore c.s1 c.s2 l
  ⟨p.1 % 65536, p.2 % 65536⟩

/-- Modelled from the spec (adler32.hpp is not in the sources): the state
starts at (1, 0). -/
def adler32.init : adler32 := ⟨1, 0⟩

/-- Modelled from the spec (adler32.hpp is not in the sources): finalize
yields (s2 <<< 16) ||| s1. -/
def adler32.finalize (c : adler32) : Nat := c.s2 * 65536 + c.s1

/-- Instrumented byte step that additionally tracks the largest value either
sum takes after any single += of the computation. -/
def adlerByteM (p : Nat × Nat × Nat) (b : Nat) : Nat × Nat × Nat :=
  (p.1 + b, p.2.1 + (p.1 + b), max p.2.2 (max (p.1 + b) (p.2.1 + (p.1 + b))))

/-- Instrumented run of unreduced byte steps. -/
def rawAdlerM (p : Nat × Nat × Nat) (l : List Nat) : Nat × Nat × Nat := l.foldl adlerByteM p

/-- Instrumented main loop, tracking the same maximum. -/
def adlerMainM : Nat → Nat → Nat → List Nat → Nat × Nat × Nat
  | s1, s2, mx, b0 :: b1 :: b2 :: b3 :: b4 :: b5 :: b6 :: b7 :: rest =>
      let p := rawAdlerM (s1, s2, mx) [b0, b1, b2, b3, b4, b5, b6, b7]
      adlerMainM (csub p.1) (if rest.length % 32768 = 0 then p.2.1 % adlerBase else p.2.1) p.2.2 rest
  | s1, s2, mx, _ => (s1, s2, mx)

/-- Instrumented crypto::adler32::update core. -/
def adlerCoreM (s1 s2 mx : Nat) (l : List Nat) : Nat × Nat × Nat :=
  if l.length % 8 = 0 then adlerMainM s1 s2 mx l
  else
    let p := rawAdlerM (s1, s2, mx) (l.take (l.length % 8))
    adlerMainM (csub p.1) (p.2.1 % adlerBase) p.2.2 (l.drop (l.length % 8))

/-- Reference byte step with full reduction after every byte. -/
def adlerSpecStep (p : Nat × Nat) (b : Nat) : Nat × Nat :=
  ((p.1 + b) % adlerBase, (p.2 + (p.1 + b) % adlerBase) % adlerBase)

/-! ## Time utilities (src/jni/innoextract/src/util/time.cpp) -/

/-- Broken-down UTC time as in struct tm (fields may be out of their usual
ranges; mktime-style normalization applies). -/
structure Tm where
  tm_sec : Int
  tm_min : Int
  tm_hour : Int
  tm_mday : Int
  tm_mon : Int
  tm_year : Int
deriving DecidableEq, Repr

/-- Days from 1970-01-01 to the given civil date (proleptic Gregorian),
the standard era-based computation. -/
def days_from_civil (y m d : Int) : Int :=
  let y2 := if m ≤ 2 then y - 1 else y
  let era := Int.fdiv (if 0 ≤ y2 then y2 else y2 - 399) 400
  let yoe := y2 - era * 400
  let mp := Int.fdiv (if 2 < m then m - 3 else m + 9) 1
  let doy := Int.fdiv (153 * mp + 2) 5 + d - 1
  let doe := yoe * 365 + Int.fdiv yoe 4 - Int.fdiv yoe 100 + doy
  era * 146097 + doe - 719468

/-- Modelled from the spec: util::parse_time converts broken-down UTC time
to a Unix timestamp via a thread-safe UTC mktime (the source defers to
timegm or an equivalent, which is outside the repository). -/
def parse_time (t : Tm) : Int :=
  days_from_civil (t.tm_year + 1900) (t.tm_mon + 1) t.tm_mday * 86400
    + t.tm_hour * 3600 + t.tm_min * 60 + t.tm_sec

/-- The process environment as far as the time codec is concerned: the
value of the TZ variable. -/
structure Env where
  tz : Option (List Char)
deriving DecidableEq, Repr

/-- util::set_timezone: assign TZ (setenv plus tzset). -/
def set_timezone (value : List Char) (env : Env) : Env := { env with tz := some value }

/-- The character rewrite performed by util::set_local_timezone: each '+'
becomes '-' and each '-' becomes '+', all other characters are kept. -/
def flip_chars : List Char → List Char
  | [] => []
  | c :: r => (if c = '+' then '-' else if c = '-' then '+' else c) :: flip_chars r

/-- util::set_local_timezone: flip the sign characters of the timezone
string, then assign it to TZ. -/
def set_local_timezone (timezone : List Char) (env : Env) : Env :=
  set_timezone (flip_chars timezone) env

/-! ## PE resource locator (src/App/jni/innoextract/src/loader/exereader.cpp) -/

/-- exe_reader_impl::header: section count, file offset of the section
table, virtual address of the resource root table. -/
structure PeHeader where
  nsections : Nat
  section_table_offset : Nat
  resource_table_address : Nat
deriving DecidableEq, Repr

/-- exe_reader_impl::section. -/
structure PeSection where
  virtual_size : Nat
  virtual_address : Nat
  raw_address : Nat
deriving DecidableEq, Repr

/-- exe_reader::resource: offset and size of the found resource, both zero
when not found. -/
structure PeResource where
  offset : Nat
  size : Nat
deriving DecidableEq, Repr

/-- exe_reader_impl::load_header. Returns none where the C++ returns false.
The section table offset is tellg() after the COFF header plus the
optional-header size. -/
def load_header (s0 : Strm) : Option PeHeader × Strm :=
  let p1 := loadU16 (seekAbs 0x3c s0)
  if p1.2.failed then (none, p1.2) else
  let pm := readBytes 4 (seekAbs p1.1 p1.2)
  if pm.2.failed then (none, pm.2) else
  if pm.1 ≠ [0x50, 0x45, 0, 0] then (none, pm.2) else
  let pns := loadU16 (skip 2 pm.2)
  let pohs := loadU16 (skip 12 pns.2)
  let s7 := skip 2 pohs.2
  let sto := s7.pos + pohs.1
  let pmag := loadU16 s7
  if pmag.2.failed then (none, pmag.2) else
  let s9 := if pmag.1 = 0x20b then skip 106 pmag.2 else skip 90 pmag.2
  let pnd := loadU32 s9
  if pnd.2.failed = true ∨ pnd.1 < 3 then (none, pnd.2) else
  let prva := loadU32 (skip 16 pnd.2)
  let psize := loadU32 prva.2
  if psize.2.failed = true ∨ prva.1 = 0 ∨ psize.1 = 0 then (none, psize.2) else
  (some ⟨pns.1, sto, prva.1⟩, psize.2)

/-- One 40-byte section table entry. -/
def load_section (s : Strm) : PeSection × Strm :=
  let pvs := loadU32 (skip 8 s)
  let pva := loadU32 pvs.2
  let pra := loadU32 (skip 4 pva.2)
  (⟨pvs.1, pva.1, pra.1⟩, skip 16 pra.2)

/-- The section table read loop. -/
def load_sections : Nat → Strm → List PeSection × Strm
  | 0, s => ([], s)
  | n + 1, s =>
      let p := load_section s
      let q := load_sections n p.2
      (p.1 :: q.1, q.2)

/-- exe_reader_impl::load_section_list. Returns none where the C++ returns
false (a failed stream after reading all entries). -/
def load_section_list (coff : PeHeader) (s : Strm) : Option (List PeSection) × Strm :=
  let p := load_sections coff.nsections (seekAbs coff.section_table_offset s)
  (if p.2.failed then none else some p.1, p.2)

/-- exe_reader_impl::to_file_offset: the first section whose virtual range
contains the address determines the file offset; otherwise 0. All
arithmetic is uint32, hence the mod 2^32 reductions. -/
def to_file_offset : List PeSection → Nat → Nat
  | [], _ => 0
  | sec :: rest, memory =>
      if sec.virtual_address ≤ memory ∧
          memory < (sec.virtual_address + sec.virtual_size) % 2 ^ 32 then
        (memory + sec.raw_address + (2 ^ 32 - sec.virtual_address % 2 ^ 32)) % 2 ^ 32
      else to_file_offset rest memory

/-- loader::get_resource_table: whether the entry points to a further table
(bit 31), and the masked offset plus the resource root offset (uint32). -/
def get_resource_table (entry : Nat) (resource_offset : Nat) : Bool × Nat :=
  (decide (2 ^ 31 ≤ entry), (entry % 2 ^ 31 + resource_offset) % 2 ^ 32)

/-- The id scan loop of exe_reader_impl::find_resource_entry. -/
def find_entry_loop : Nat → Nat → Strm → Nat × Strm
  | 0, _, s => (0, s)
  | n + 1, needle, s =>
      let pid := loadU32 s
      let poff := loadU32 pid.2
      if poff.2.failed then (0, poff.2)
      else if pid.1 = needle then (poff.1, poff.2)
      else find_entry_loop n needle poff.2

/-- exe_reader_impl::find_resource_entry: skip the directory header and the
named entries, then scan the id entries for the needle. -/
def find_resource_entry (needle : Nat) (s : Strm) : Nat × Strm :=
  let s1 := skip 12 s
  if s1.failed then (0, s1) else
  let pn := loadU16 s1
  let pi := loadU16 pn.2
  let s4 := skip (pn.1 * 8) pi.2
  if s4.failed then (0, s4) else
  find_entry_loop pi.1 needle s4

/-- exe_reader_impl::find_resource: load the header and section table,
translate the resource root, walk type, name and language levels, then
read and translate the leaf. Every failure returns offset 0 and size 0. -/
def find_resource (s0 : Strm) (name ty language : Nat) : PeResource × Strm :=
  let s := seekAbs 0 s0
  let ph := load_header s
  match ph.1 with
  | none => (⟨0, 0⟩, ph.2)
  | some coff =>
    let psl := load_section_list coff ph.2
    match psl.1 with
    | none => (⟨0, 0⟩, psl.2)
    | some sections =>
      let resource_offset := to_file_offset sections coff.resource_table_address
      if resource_offset = 0 then (⟨0, 0⟩, psl.2) else
      let pt := find_resource_entry ty (seekAbs resource_offset psl.2)
      let gt := get_resource_table pt.1 resource_offset
      if gt.1 = false then (⟨0, 0⟩, pt.2) else
      let pn := find_resource_entry name (seekAbs gt.2 pt.2)
      let gn := get_resource_table pn.1 resource_offset
      if gn.1 = false then (⟨0, 0⟩, pn.2) else
      let pl := find_resource_entry language (seekAbs gn.2 pn.2)
      let gl := get_resource_table pl.1 resource_offset
      if pl.1 = 0 ∨ gl.1 = true then (⟨0, 0⟩, pl.2) else
      let pda := loadU32 (seekAbs gl.2 pl.2)
      let pds := loadU32 pda.2
      if pds.2.failed then (⟨0, 0⟩, pds.2) else
      let data_offset := to_file_offset sections pda.1
      if data_offset = 0 then (⟨0, 0⟩, pds.2) else
      (⟨data_offset, pds.1⟩, pds.2)

/-! ## Setup data entry (src/Service/jni/innoextract/src/setup/data.cpp) -/

/-- setup::version: the (major, minor, patch) triple plus the bit width of
the installer format (16 or 32). -/
structure Version where
  major : Nat
  minor : Nat
  patch : Nat
  bits : Nat
deriving DecidableEq, Repr

/-- Modelled from the spec (version.hpp is not in the sources): version
comparison against an INNO_VERSION(m, mi, p) literal is lexicographic on
the (major, minor, patch) triple. -/
def vlt (v : Version) (m mi p : Nat) : Bool :=
  v.major < m || (v.major = m && (v.minor < mi || (v.minor = mi && v.patch < p)))

/-- Version at least a literal: the negation of the lexicographic less-than. -/
def vge (v : Version) (m mi p : Nat) : Bool := ! vlt v m mi p

/-- setup::data_entry::flags. -/
inductive DFlag where
  | VersionInfoValid
  | VersionInfoNotValid
  | TimeStampInUTC
  | IsUninstallerExe
  | CallInstructionOptimized
  | Touch
  | ChunkEncrypted
  | ChunkCompressed
  | SolidBreak
  | BZipped
deriving DecidableEq, Repr

/-- crypto::checksum: a tagged union over the four checksum kinds. -/
inductive Checksum where
  | adler32 (value : Nat)
  | crc32 (value : Nat)
  | md5 (bytes : List Nat)
  | sha1 (bytes : List Nat)
deriving DecidableEq, Repr

/-- crypto::checksum_type of a checksum value. -/
inductive ChecksumType where
  | Adler32
  | CRC32
  | MD5
  | SHA1
deriving DecidableEq, Repr

/-- The tag of a checksum union value. -/
def Checksum.tag : Checksum → ChecksumType
  | .adler32 _ => .Adler32
  | .crc32 _ => .CRC32
  | .md5 _ => .MD5
  | .sha1 _ => .SHA1

/-- stream::compression_method values used by the data entry decoder. -/
inductive Compression where
  | Stored
  | BZip2
  | UnknownCompression
deriving DecidableEq, Repr

/-- stream::instruction_filter values. -/
inductive IFilter where
  | NoFilter
  | InstructionFilter4108
  | InstructionFilter5200
  | InstructionFilter5309
deriving DecidableEq, Repr

/-- The chunk part of a setup::data_entry. -/
structure ChunkInfo where
  first_slice : Nat
  last_slice : Nat
  offset : Nat
  size : Nat
  compression : Compression
  encrypted : Bool
deriving DecidableEq, Repr

/-- The file part of a setup::data_entry. -/
structure FileInfo where
  offset : Nat
  size : Nat
  checksum : Checksum
  filter : IFilter
deriving DecidableEq, Repr

/-- setup::data_entry after load. The options flag set is modelled as its
characteristic function. -/
structure DataEntry where
  chunk : ChunkInfo
  file : FileInfo
  timestamp : Int
  timestamp_nsec : Nat
  file_version : Nat
  options : DFlag → Bool

/-- Lines 34-43 of data.cpp: read the two slice numbers and, before version
4.0.0, either warn (when a stored value is below 1) or decrement both. -/
def loadSlices (v : Version) (s0 : Strm) : (Nat × Nat) × Strm :=
  let p1 := loadVarint v.bits s0
  let p2 := loadVarint v.bits p1.2
  if vlt v 4 0 0 then
    if p1.1 < 1 ∨ p2.1 < 1 then ((p1.1, p2.1), warn p2.2)
    else ((p1.1 - 1, p2.1 - 1), p2.2)
  else ((p1.1, p2.1), p2.2)

/-- Lines 61-73 of data.cpp: the version-gated checksum read. -/
def loadChecksum (v : Version) (s : Strm) : Checksum × Strm :=
  if vge v 5 3 9 then
    let p := readBytes 20 s
    (Checksum.sha1 p.1, p.2)
  else if vge v 4 2 0 then
    let p := readBytes 16 s
    (Checksum.md5 p.1, p.2)
  else if vge v 4 0 1 then
    let p := loadU32 s
    (Checksum.crc32 p.1, p.2)
  else
    let p := loadU32 s
    (Checksum.adler32 p.1, p.2)

/-- util::get_bits(x, first, last): the bit field from first to last
inclusive. -/
def get_bits (x first last : Nat) : Nat := x / 2 ^ first % 2 ^ (last - first + 1)

/-- The FILETIME epoch offset 0x19DB1DED53E8000: 100ns ticks from
1601-01-01 to 1970-01-01. -/
def FiletimeOffset : Int := 0x19DB1DED53E8000

/-- Signed interpretation of a uint64 bit pattern (two's complement). -/
def asInt64 (u : Nat) : Int := if u < 2 ^ 63 then (u : Int) else (u : Int) - 2 ^ 64

/-- Conversion of an int64 value to uint32 (value mod 2^32). -/
def toU32 (z : Int) : Nat := (z % (2 ^ 32 : Int)).toNat

/-- Lines 75-108 of data.cpp: the timestamp read. 16-bit installers use the
FAT format fed through parse_time; 32-bit installers read a Win32 FILETIME,
warn when it lies before the epoch offset, and split it into seconds
(int64 division truncating toward zero, as in C++) and a uint32
nanosecond part. Returns (timestamp, timestamp_nsec, stream). -/
def loadTimestamp (v : Version) (s : Strm) : Int × Nat × Strm :=
  if v.bits = 16 then
    let ptime := loadU16 s
    let pdate := loadU16 ptime.2
    let t : Tm := ⟨(get_bits ptime.1 0 4 * 2 : Nat), (get_bits ptime.1 5 10 : Nat),
      (get_bits ptime.1 11 15 : Nat), (get_bits pdate.1 0 4 : Nat),
      (get_bits pdate.1 5 8 : Int) - 1, (get_bits pdate.1 9 15 : Int) + 1980 - 1900⟩
    (parse_time t, 0, pdate.2)
  else
    let pft := loadU64 s
    let filetime := asInt64 pft.1
    let s2 := if filetime < FiletimeOffset then warn pft.2 else pft.2
    let ft2 := filetime - FiletimeOffset
    (Int.tdiv ft2 10000000, toU32 (Int.tmod ft2 10000000) * 100 % 2 ^ 32, s2)

/-- Lines 119-146 of data.cpp: the ordered flag catalog registered on the
stored_flag_reader, each member guarded by its version test. -/
def flagCatalog (v : Version) : List DFlag :=
  [DFlag.VersionInfoValid, DFlag.VersionInfoNotValid]
    ++ (if vge v 2 0 17 && vlt v 4 0 1 then [DFlag.BZipped] else [])
    ++ (if vge v 4 0 10 then [DFlag.TimeStampInUTC] else [])
    ++ (if vge v 4 1 0 then [DFlag.IsUninstallerExe] else [])
    ++ (if vge v 4 1 8 then [DFlag.CallInstructionOptimized] else [])
    ++ (if vge v 4 2 0 then [DFlag.Touch] else [])
    ++ (if vge v 4 2 2 then [DFlag.ChunkEncrypted] else [])
    ++ (if vge v 4 2 5 then [DFlag.ChunkCompressed] else [])
    ++ (if vge v 5 1 13 then [DFlag.SolidBreak] else [])

/-- Bit i of a little-endian packed byte list. -/
def bitAt (bs : List Nat) (i : Nat) : Bool := bs.getD (i / 8) 0 / 2 ^ (i % 8) % 2 = 1

/-- Modelled from the spec (util/storedenum.hpp is not in the sources): the
realized stored_flag_reader consumes ceil(N/8) bytes for 32-bit installers
and the 16-bit-aligned equivalent for 16-bit installers; bit i of the
little-endian packed stream sets the i-th registered catalog flag. Flags
outside the catalog are never produced. -/
def read_flags (catalog : List DFlag) (bits : Nat) (s : Strm) : (DFlag → Bool) × Strm :=
  let nbytes := if bits = 16 then 2 * ((catalog.length + 15) / 16) else (catalog.length + 7) / 8
  let p := readBytes nbytes s
  (fun f => catalog.contains f && bitAt p.1 (catalog.indexOf f), p.2)

/-- setup::data_entry::load (data.cpp lines 32-173). -/
def data_entry_load (v : Version) (s0 : Strm) : DataEntry × Strm :=
  let ps := loadSlices v s0
  let pco := loadU32 ps.2
  let pfo := if vge v 4 0 1 then loadU64 pco.2 else (0, pco.2)
  let pfs := if vge v 4 0 0 then loadU64 pfo.2 else loadU32 pfo.2
  let pcs := if vge v 4 0 0 then loadU64 pfs.2 else loadU32 pfs.2
  let pck := loadChecksum v pcs.2
  let pts := loadTimestamp v pck.2
  let pvms := loadU32 pts.2.2
  let pvls := loadU32 pvms.2
  let file_version := pvms.1 * 2 ^ 32 + pvls.1
  let forced : DFlag → Bool := fun f => ! vge v 4 2 5 && f = DFlag.ChunkCompressed
  let pfl := read_flags (flagCatalog v) v.bits pvls.2
  let opts1 : DFlag → Bool := fun f => forced f || pfl.1 f
  let compression1 := if opts1 DFlag.ChunkCompressed then Compression.UnknownCompression
    else Compression.Stored
  let opts2 : DFlag → Bool :=
    if opts1 DFlag.BZipped then fun f => opts1 f || f = DFlag.ChunkCompressed else opts1
  let compression2 := if opts1 DFlag.BZipped then Compression.BZip2 else compression1
  let encrypted := opts2 DFlag.ChunkEncrypted
  let filter :=
    if opts2 DFlag.CallInstructionOptimized then
      if vlt v 5 2 0 then IFilter.InstructionFilter4108
      else if vlt v 5 3 9 then IFilter.InstructionFilter5200
      else IFilter.InstructionFilter5309
    else IFilter.NoFilter
  (⟨⟨ps.1.1, ps.1.2, pco.1, pcs.1, compression2, encrypted⟩,
    ⟨pfo.1, pfs.1, pck.1, filter⟩, pts.1, pts.2.1, file_version, opts2⟩, pfl.2)

/-- Spec-side description for the amended C4: find_resource fails (returns
offset 0 and size 0) exactly when the header does not load (missing or
unreadable PE magic, fewer than 3 data directories, zero resource RVA or
size), the section table read fails, the resource root RVA translates to
file offset 0, the type or name level yields no sub-directory entry (id
absent, read failure, or high bit clear), the language level yields entry
0 or a sub-directory entry, the leaf read fails, or the leaf data RVA
translates to file offset 0. -/
def findResourceFails (s0 : Strm) (nm ty lg : Nat) : Bool :=
  let s := seekAbs 0 s0
  let ph := load_header s
  match ph.1 with
  | none => true
  | some coff =>
    let psl := load_section_list coff ph.2
    match psl.1 with
    | none => true
    | some sections =>
      let ro := to_file_offset sections coff.resource_table_address
      if ro = 0 then true else
      let pt := find_resource_entry ty (seekAbs ro psl.2)
      if (get_resource_table pt.1 ro).1 = false then true else
      let pn := find_resource_entry nm (seekAbs (get_resource_table pt.1 ro).2 pt.2)
      if (get_resource_table pn.1 ro).1 = false then true else
      let pl := find_resource_entry lg (seekAbs (get_resource_table pn.1 ro).2 pn.2)
      if pl.1 = 0 ∨ (get_resource_table pl.1 ro).1 = true then true else
      let pda := loadU32 (seekAbs (get_resource_table pl.1 ro).2 pl.2)
      let pds := loadU32 pda.2
      if pds.2.failed then true else
      decide (to_file_offset sections pda.1 = 0)

/-- A run of zero bytes. -/
def zeros (n : Nat) : List Nat := List.replicate n 0

/-- Little-endian bytes of a uint16 value. -/
def w16 (x : Nat) : List Nat := [x % 256, x / 256 % 256]

/-- Little-endian bytes of a uint32 value. -/
def w32 (x : Nat) : List Nat := [x % 256, x / 256 % 256, x / 65536 % 256, x / 16777216 % 256]

/-- A 280-byte PE image with one section and a resource directory whose
type entry (id 10) is present but has its high bit clear: a leaf where a
sub-directory is required. All listed well-formedness properties hold, yet
find_resource fails. -/
def c4data : List Nat :=
  zeros 0x3C ++ w16 0x40 ++ zeros 2
    ++ [0x50, 0x45, 0, 0]
    ++ zeros 2 ++ w16 1
    ++ zeros 12 ++ w16 120 ++ zeros 2
    ++ w16 0x10B ++ zeros 90
    ++ w32 3 ++ zeros 16
    ++ w32 0x1000 ++ w32 0x100
    ++ zeros 8 ++ w32 0x1000 ++ w32 0x1000 ++ zeros 4 ++ w32 0x100 ++ zeros 16
    ++ zeros 20 ++ w16 0 ++ w16 1
    ++ w32 10 ++ w32 0x18

/-- A 440-byte PE image with two sections whose complete resource walk
succeeds; the leaf data RVA 0x2000 is genuinely covered by the second
section (raw_address 0), so it translates to file offset 0. -/
def c10data : List Nat :=
  zeros 0x3C ++ w16 0x40 ++ zeros 2
    ++ [0x50, 0x45, 0, 0]
    ++ zeros 2 ++ w16 2
    ++ zeros 12 ++ w16 120 ++ zeros 2
    ++ w16 0x10B ++ zeros 90
    ++ w32 3 ++ zeros 16
    ++ w32 0x1000 ++ w32 0x100
    ++ zeros 8 ++ w32 0x1000 ++ w32 0x1000 ++ zeros 4 ++ w32 0x140 ++ zeros 16
    ++ zeros 8 ++ w32 0x100 ++ w32 0x2000 ++ zeros 4 ++ w32 0 ++ zeros 16
    ++ zeros 32
    ++ zeros 12 ++ w16 0 ++ w16 1 ++ w32 10 ++ w32 0x80000030
    ++ zeros 24
    ++ zeros 12 ++ w16 0 ++ w16 1 ++ w32 1 ++ w32 0x80000050
    ++ zeros 8
    ++ zeros 12 ++ w16 0 ++ w16 1 ++ w32 0 ++ w32 0x70
    ++ zeros 8
    ++ w32 0x2000 ++ w32 0x99

/-! ## Proofs about the time utilities -/

theorem flip_chars_length (s : List Char) : (flip_chars s).length = s.length := by
  induction s with
  | nil => rfl
  | cons c r ih => simp [flip_chars, ih]

theorem flip_chars_getD (s : List Char) (i : Nat) (h : i < s.length) :
    (flip_chars s).getD i 'x' =
      (if s.getD i 'x' = '+' then '-' else if s.getD i 'x' = '-' then '+' else s.getD i 'x') := by
  induction s generalizing i with
  | nil => simp at h
  | cons c r ih =>
      cases i with
      | zero => simp [flip_chars]
      | succ j =>
          simp only [flip_chars, List.getD_cons_succ]
          exact ih j (by simpa using h)

/-- C8: set_local_timezone replaces every plus character with a minus and
every minus character with a plus before assigning the result to the TZ
environment variable, so an offset like GMT+1 denotes one hour east of
UTC. -/
theorem set_local_timezone_flips_signs (s : List Char) (env : Env) :
    (set_local_timezone s env).tz = some (flip_chars s) ∧
    (flip_chars s).length = s.length ∧
    ∀ i, i < s.length →
      (flip_chars s).getD i 'x' =
        (if s.getD i 'x' = '+' then '-' else if s.getD i 'x' = '-' then '+' else s.getD i 'x') := by
  refine ⟨rfl, flip_chars_length s, ?_⟩
  intro i hi
  exact flip_chars_getD s i hi

/-- Witness for C8 at the concrete input GMT+1: the TZ variable receives
GMT-1 and position 3 flips from plus to minus. -/
theorem set_local_timezone_flips_signs_witness :
    (set_local_timezone ['G', 'M', 'T', '+', '1'] ⟨none⟩).tz = some ['G', 'M', 'T', '-', '1'] ∧
    (flip_chars ['G', 'M', 'T', '+', '1']).getD 3 'x' = '-' := by
  have h := set_local_timezone_flips_signs ['G', 'M', 'T', '+', '1'] ⟨none⟩
  refine ⟨h.1.trans (by decide), (h.2.2 3 (by decide)).trans (by decide)⟩

/-! ## Proofs about the PE resource locator -/

/-- C5: to_file_offset maps an address to file offset
address + raw_address - virtual_address of the first section whose
virtual range [virtual_address, virtual_address + virtual_size) contains
it (uint32 arithmetic), and returns 0 when no section covers the address. -/
theorem to_file_offset_correct (sections : List PeSection) (a : Nat)
    (hwf : ∀ S ∈ sections,
      S.virtual_address + S.virtual_size < 2 ^ 32 ∧ S.raw_address < 2 ^ 32) :
    to_file_offset sections a =
      match sections.find? (fun S =>
          decide (S.virtual_address ≤ a ∧ a < S.virtual_address + S.virtual_size)) with
      | some S => (a - S.virtual_address + S.raw_address) % 2 ^ 32
      | none => 0 := by
  induction sections with
  | nil => rfl
  | cons S rest ih =>
      have hS := hwf S (List.mem_cons_self _ _)
      have hrest : ∀ T ∈ rest,
          T.virtual_address + T.virtual_size < 2 ^ 32 ∧ T.raw_address < 2 ^ 32 :=
        fun T hT => hwf T (List.mem_cons_of_mem _ hT)
      have hmod : (S.virtual_address + S.virtual_size) % 2 ^ 32 =
          S.virtual_address + S.virtual_size := Nat.mod_eq_of_lt hS.1
      by_cases hc : S.virtual_address ≤ a ∧ a < S.virtual_address + S.virtual_size
      · rw [to_file_offset, if_pos (by rw [hmod]; exact hc),
          List.find?_cons_of_pos _ (by simpa using hc)]
        have hva : S.virtual_address % 2 ^ 32 = S.virtual_address :=
          Nat.mod_eq_of_lt (by omega)
        rw [hva]
        show (a + S.raw_address + (2 ^ 32 - S.virtual_address)) % 2 ^ 32 =
          (a - S.virtual_address + S.raw_address) % 2 ^ 32
        omega
      · rw [to_file_offset, if_neg (by rw [hmod]; exact hc),
          List.find?_cons_of_neg _ (by simpa using hc)]
        exact ih hrest

/-- Witness for C5: a concrete section covering 0x2500 maps it to 0x900 and
an uncovered address maps to 0. -/
theorem to_file_offset_correct_witness :
    to_file_offset [⟨0x1000, 0x2000, 0x400⟩] 0x2500 = 0x900 ∧
    to_file_offset [⟨0x1000, 0x2000, 0x400⟩] 0x5000 = 0 := by
  have h1 := to_file_offset_correct [⟨0x1000, 0x2000, 0x400⟩] 0x2500 (by decide)
  have h2 := to_file_offset_correct [⟨0x1000, 0x2000, 0x400⟩] 0x5000 (by decide)
  exact ⟨h1.trans (by decide), h2.trans (by decide)⟩

/-! ## Proofs about the data entry decoder -/

theorem loadChecksum_tag (v : Version) (s : Strm) :
    (loadChecksum v s).1.tag =
      (if vge v 5 3 9 then ChecksumType.SHA1
       else if vge v 4 2 0 then ChecksumType.MD5
       else if vge v 4 0 1 then ChecksumType.CRC32
       else ChecksumType.Adler32) := by
  rw [loadChecksum]
  split
  · rfl
  · split
    · rfl
    · split
      · rfl
      · rfl

/-- C1: every data_entry load stores exactly one checksum field whose tag
is chosen by the first matching version rule (at least 5.3.9 reads 20
bytes tagged SHA1, else at least 4.2.0 reads 16 bytes tagged MD5, else at
least 4.0.1 reads a uint32 tagged CRC32, else a uint32 tagged Adler32),
and the checksum read of loadChecksum consumes exactly that many bytes. -/
theorem data_entry_checksum_selection (v : Version) (s t : Strm)
    (hf : t.failed = false) (hlen : t.pos + 20 ≤ t.data.length) :
    (data_entry_load v s).1.file.checksum.tag =
      (if vge v 5 3 9 then ChecksumType.SHA1
       else if vge v 4 2 0 then ChecksumType.MD5
       else if vge v 4 0 1 then ChecksumType.CRC32
       else ChecksumType.Adler32) ∧
    (loadChecksum v t).2.pos = t.pos +
      (if vge v 5 3 9 then 20 else if vge v 4 2 0 then 16 else 4) := by
  constructor
  · rw [data_entry_load]
    dsimp only
    rw [loadChecksum_tag]
  · have h20 : (readBytes 20 t).2.pos = t.pos + 20 := by
      simp [readBytes, hf, hlen]
    have h16 : (readBytes 16 t).2.pos = t.pos + 16 := by
      have hl : t.pos + 16 ≤ t.data.length := by omega
      simp [readBytes, hf, hl]
    have h4 : (readBytes 4 t).2.pos = t.pos + 4 := by
      have hl : t.pos + 4 ≤ t.data.length := by omega
      simp [readBytes, hf, hl]
    rw [loadChecksum]
    split
    · simpa using h20
    · split
      · simpa using h16
      · split
        · simpa [loadU32] using h4
        · simpa [loadU32] using h4

/-- Witness for C1: a 32-bit version 4.2.0 stream long enough for the
checksum read selects MD5 and consumes 16 bytes. -/
theorem data_entry_checksum_selection_witness :
    (data_entry_load ⟨4, 2, 0, 32⟩ ⟨List.replicate 64 0, 0, false, 0⟩).1.file.checksum.tag =
      ChecksumType.MD5 ∧
    (loadChecksum ⟨4, 2, 0, 32⟩ ⟨List.replicate 64 0, 0, false, 0⟩).2.pos = 16 := by
  have h := data_entry_checksum_selection ⟨4, 2, 0, 32⟩ ⟨List.replicate 64 0, 0, false, 0⟩
    ⟨List.replicate 64 0, 0, false, 0⟩ rfl (by simp)
  exact ⟨h.1.trans (by decide), h.2.trans (by decide)⟩

/-- C3: before version 4.0.0 the 1-based stored slice indices are both
decremented when both are at least 1, while a warning is logged and the
values kept when either stored value is 0; from version 4.0.0 on both
values are kept exactly as read. The entry fields are the loadSlices
results. -/
theorem data_entry_slice_adjustment (v : Version) (s : Strm) :
    (data_entry_load v s).1.chunk.first_slice = (loadSlices v s).1.1 ∧
    (data_entry_load v s).1.chunk.last_slice = (loadSlices v s).1.2 ∧
    (vlt v 4 0 0 = true →
      (1 ≤ (loadVarint v.bits s).1 ∧ 1 ≤ (loadVarint v.bits (loadVarint v.bits s).2).1 →
        (loadSlices v s).1 = ((loadVarint v.bits s).1 - 1,
          (loadVarint v.bits (loadVarint v.bits s).2).1 - 1) ∧
        (loadSlices v s).2 = (loadVarint v.bits (loadVarint v.bits s).2).2) ∧
      (((loadVarint v.bits s).1 = 0 ∨ (loadVarint v.bits (loadVarint v.bits s).2).1 = 0) →
        (loadSlices v s).1 = ((loadVarint v.bits s).1,
          (loadVarint v.bits (loadVarint v.bits s).2).1) ∧
        (loadSlices v s).2.warnings =
          (loadVarint v.bits (loadVarint v.bits s).2).2.warnings + 1)) ∧
    (vlt v 4 0 0 = false →
      (loadSlices v s).1 = ((loadVarint v.bits s).1,
        (loadVarint v.bits (loadVarint v.bits s).2).1) ∧
      (loadSlices v s).2 = (loadVarint v.bits (loadVarint v.bits s).2).2) := by
  refine ⟨by rw [data_entry_load], by rw [data_entry_load], ?_, ?_⟩
  · intro hv
    constructor
    · intro hge
      rw [loadSlices]
      simp only [hv, if_true]
      rw [if_neg (by omega)]
      exact ⟨rfl, rfl⟩
    · intro h0
      rw [loadSlices]
      simp only [hv, if_true]
      rw [if_pos (by omega)]
      exact ⟨rfl, rfl⟩
  · intro hv
    rw [loadSlices]
    simp only [hv, if_false]
    exact ⟨rfl, rfl⟩

/-- Witness for C3 at version 3.0.0 (32-bit) on a stream whose stored
slices are 1 and 2: both are decremented and no warning is logged. -/
theorem data_entry_slice_adjustment_witness :
    (data_entry_load ⟨3, 0, 0, 32⟩ ⟨[1, 0, 0, 0, 2, 0, 0, 0], 0, false, 0⟩).1.chunk.first_slice
      = 0 ∧
    (loadSlices ⟨3, 0, 0, 32⟩ ⟨[1, 0, 0, 0, 2, 0, 0, 0], 0, false, 0⟩).1 = (0, 1) := by
  have h := data_entry_slice_adjustment ⟨3, 0, 0, 32⟩ ⟨[1, 0, 0, 0, 2, 0, 0, 0], 0, false, 0⟩
  have h2 := (h.2.2.1 (by decide)).1 (by decide)
  exact ⟨h.1.trans (by decide), h2.1.trans (by decide)⟩

/-- C6: after a data_entry load, versions before 4.2.5 always carry
ChunkCompressed in the options (forced on rather than read); the chunk
compression is BZip2 when BZipped is set, else UnknownCompression when
ChunkCompressed is set, else Stored; and the chunk is encrypted exactly
when ChunkEncrypted is set. -/
theorem data_entry_compression_derivation (v : Version) (s : Strm) :
    (vlt v 4 2 5 = true → (data_entry_load v s).1.options DFlag.ChunkCompressed = true) ∧
    (data_entry_load v s).1.chunk.compression =
      (if (data_entry_load v s).1.options DFlag.BZipped then Compression.BZip2
       else if (data_entry_load v s).1.options DFlag.ChunkCompressed then
         Compression.UnknownCompression
       else Compression.Stored) ∧
    (data_entry_load v s).1.chunk.encrypted =
      (data_entry_load v s).1.options DFlag.ChunkEncrypted := by
  rw [data_entry_load]
  dsimp only
  refine ⟨?_, ?_, ?_⟩
  · intro hv
    have hv2 : vge v 4 2 5 = false := by simp [vge, hv]
    simp only [ite_apply]
    split
    · simp [hv2]
    · simp [hv2]
  · simp only [ite_apply]
    split
    · rename_i hbz
      simp_all
    · rename_i hbz
      simp_all
  · rfl

/-- Witness for C6: at version 4.0.0 (32-bit) on an all-zero stream the
loaded options contain ChunkCompressed even though every stored flag bit
is clear. -/
theorem data_entry_compression_derivation_witness :
    (data_entry_load ⟨4, 0, 0, 32⟩
      ⟨List.replicate 64 0, 0, false, 0⟩).1.options DFlag.ChunkCompressed = true :=
  (data_entry_compression_derivation ⟨4, 0, 0, 32⟩
    ⟨List.replicate 64 0, 0, false, 0⟩).1 (by decide)

/-- The bytes of a data_entry record for version 5.3.9 (32-bit) whose
FILETIME field (at offset 56) holds FiletimeOffset - 1 little-endian. -/
def c2data : List Nat :=
  List.replicate 56 0 ++ [0xFF, 0x7F, 0x3E, 0xD5, 0xDE, 0xB1, 0x9D, 0x01]
    ++ List.replicate 10 0

/-- C2 counterexample: loading a data_entry at version 5.3.9 (32-bit) whose
raw FILETIME is FiletimeOffset - 1 produces epoch 0 (truncating int64
division), not epoch -1 as claimed; the nanosecond field wraps to
4294967196 and exactly one warning is logged, with no failure. -/
theorem data_entry_filetime_epoch_counterexample :
    asInt64 (loadU64 ⟨c2data, 56, false, 0⟩).1 = FiletimeOffset - 1 ∧
    (data_entry_load ⟨5, 3, 9, 32⟩ ⟨c2data, 0, false, 0⟩).1.timestamp = 0 ∧
    (data_entry_load ⟨5, 3, 9, 32⟩ ⟨c2data, 0, false, 0⟩).1.timestamp ≠ -1 ∧
    (data_entry_load ⟨5, 3, 9, 32⟩ ⟨c2data, 0, false, 0⟩).1.timestamp_nsec = 4294967196 ∧
    (data_entry_load ⟨5, 3, 9, 32⟩ ⟨c2data, 0, false, 0⟩).2.warnings = 1 ∧
    (data_entry_load ⟨5, 3, 9, 32⟩ ⟨c2data, 0, false, 0⟩).2.failed = false := by
  refine ⟨by decide, by decide, by decide, by decide, by decide, by decide⟩

/-- C2 amended: on a 32-bit version, a raw FILETIME below FiletimeOffset
logs exactly one warning and decoding proceeds without failure; the epoch
is the truncating int64 division of the offset difference, hence
nonpositive, and it is negative exactly when the raw value is at least
10^7 ticks below the offset (so FiletimeOffset - 1 gives epoch 0). -/
theorem filetime_below_offset_warns (v : Version) (s : Strm)
    (hb : v.bits = 32) (hf : s.failed = false) (hlen : s.pos + 8 ≤ s.data.length)
    (hlow : asInt64 (loadU64 s).1 < FiletimeOffset) :
    (loadTimestamp v s).2.2.warnings = s.warnings + 1 ∧
    (loadTimestamp v s).2.2.failed = false ∧
    (loadTimestamp v s).1 = Int.tdiv (asInt64 (loadU64 s).1 - FiletimeOffset) 10000000 ∧
    (loadTimestamp v s).1 ≤ 0 ∧
    ((loadTimestamp v s).1 < 0 ↔ asInt64 (loadU64 s).1 ≤ FiletimeOffset - 10000000) := by
  have hb16 : v.bits ≠ 16 := by omega
  have hread : (loadU64 s).2 = { s with pos := s.pos + 8 } := by
    simp [loadU64, readBytes, hf, hlen]
  have hneg : asInt64 (loadU64 s).1 - FiletimeOffset < 0 := by omega
  rw [loadTimestamp]
  simp only [hb16, if_false, hlow, if_true, hread]
  refine ⟨rfl, by simp [warn, hf], trivial, ?_, ?_⟩
  · have h1 : asInt64 (loadU64 s).1 - FiletimeOffset =
        -(-(asInt64 (loadU64 s).1 - FiletimeOffset)) := by ring
    rw [h1, Int.neg_tdiv]
    have h2 : (0 : Int) ≤ (-(asInt64 (loadU64 s).1 - FiletimeOffset)).tdiv 10000000 :=
      Int.tdiv_nonneg (by omega) (by norm_num)
    omega
  · have h1 : asInt64 (loadU64 s).1 - FiletimeOffset =
        -(-(asInt64 (loadU64 s).1 - FiletimeOffset)) := by ring
    rw [h1, Int.neg_tdiv]
    constructor
    · intro h
      by_contra hc
      have h0 : (-(asInt64 (loadU64 s).1 - FiletimeOffset)).tdiv 10000000 = 0 :=
        Int.tdiv_eq_zero_of_lt (by omega) (by omega)
      omega
    · intro h
      have h2 : (1 : Int) ≤ (-(asInt64 (loadU64 s).1 - FiletimeOffset)).tdiv 10000000 := by
        rw [Int.tdiv_eq_ediv (by omega) (by norm_num)]
        rw [Int.le_ediv_iff_mul_le (by norm_num)]
        omega
      omega

/-- Witness for C2 amended at the concrete FiletimeOffset - 1 stream: one
warning, no failure, epoch 0. -/
theorem filetime_below_offset_warns_witness :
    (loadTimestamp ⟨5, 3, 9, 32⟩ ⟨c2data, 56, false, 0⟩).2.2.warnings = 1 ∧
    (loadTimestamp ⟨5, 3, 9, 32⟩ ⟨c2data, 56, false, 0⟩).1 = 0 := by
  have h := filetime_below_offset_warns ⟨5, 3, 9, 32⟩ ⟨c2data, 56, false, 0⟩ rfl rfl
    (by decide) (by decide)
  refine ⟨h.1.trans (by decide), ?_⟩
  have h4 := h.2.2.2.1
  have h5 := h.2.2.2.2
  have h6 : ¬ (asInt64 (loadU64 ⟨c2data, 56, false, 0⟩).1 ≤ FiletimeOffset - 10000000) := by
    decide
  have h7 := fun hc => h6 (h5.mp hc)
  omega

/-! ## Proofs about Adler-32 -/

theorem rawAdler_cons (p : Nat × Nat) (b : Nat) (l : List Nat) :
    rawAdler p (b :: l) = rawAdler (p.1 + b, p.2 + (p.1 + b)) l := rfl

theorem rawAdler_append (p : Nat × Nat) (xs ys : List Nat) :
    rawAdler p (xs ++ ys) = rawAdler (rawAdler p xs) ys := List.foldl_append _ _ _ _

theorem rawAdler_fst (l : List Nat) (p : Nat × Nat) : (rawAdler p l).1 = p.1 + l.sum := by
  induction l generalizing p with
  | nil => simp [rawAdler]
  | cons b r ih =>
      rw [rawAdler_cons, ih]
      simp
      omega

theorem sum_le_of_bytes (l : List Nat) (hb : ∀ b ∈ l, b < 256) :
    l.sum ≤ 255 * l.length := by
  induction l with
  | nil => simp
  | cons b r ih =>
      have h1 := hb b (by simp)
      have h2 := ih fun x hx => hb x (by simp [hx])
      simp [List.sum_cons]
      omega

theorem rawAdler_mono (l : List Nat) (p : Nat × Nat) :
    p.1 ≤ (rawAdler p l).1 ∧ p.2 ≤ (rawAdler p l).2 := by
  induction l generalizing p with
  | nil => exact ⟨le_refl _, le_refl _⟩
  | cons b r ih =>
      rw [rawAdler_cons]
      have h := ih (p.1 + b, p.2 + (p.1 + b))
      exact ⟨le_trans (by omega) h.1, le_trans (by omega) h.2⟩

theorem rawAdler_snd_le (l : List Nat) (p : Nat × Nat) :
    (rawAdler p l).2 ≤ p.2 + l.length * (rawAdler p l).1 := by
  induction l generalizing p with
  | nil => simp [rawAdler]
  | cons b r ih =>
      rw [rawAdler_cons]
      have h := ih (p.1 + b, p.2 + (p.1 + b))
      have hm := (rawAdler_mono r (p.1 + b, p.2 + (p.1 + b))).1
      simp only [List.length_cons, Nat.succ_mul]
      omega

theorem rawAdler_modeq (l : List Nat) (s1 s2 t1 t2 : Nat)
    (h1 : s1 ≡ t1 [MOD adlerBase]) (h2 : s2 ≡ t2 [MOD adlerBase]) :
    (rawAdler (s1, s2) l).1 ≡ (rawAdler (t1, t2) l).1 [MOD adlerBase] ∧
    (rawAdler (s1, s2) l).2 ≡ (rawAdler (t1, t2) l).2 [MOD adlerBase] := by
  induction l generalizing s1 s2 t1 t2 with
  | nil => exact ⟨h1, h2⟩
  | cons b r ih =>
      rw [rawAdler_cons, rawAdler_cons]
      exact ih _ _ _ _ (h1.add_right b) (h2.add (h1.add_right b))

theorem csub_modeq (x : Nat) : csub x ≡ x [MOD adlerBase] := by
  rw [csub, Nat.ModEq]
  split
  · simp only [adlerBase] at *
    omega
  · rfl

theorem csub_lt (x : Nat) (h : x < 2 * adlerBase) : csub x < adlerBase := by
  rw [csub]
  split <;> omega

theorem eq_mod_of_modeq_lt (a b n : Nat) (h : a ≡ b [MOD n]) (hlt : a < n) : a = b % n := by
  have h2 : a % n = b % n := h
  rw [Nat.mod_eq_of_lt hlt] at h2
  exact h2

theorem list_eight_split : ∀ l : List Nat, 8 ≤ l.length →
    ∃ b0 b1 b2 b3 b4 b5 b6 b7 rest,
      l = b0 :: b1 :: b2 :: b3 :: b4 :: b5 :: b6 :: b7 :: rest
  | b0 :: b1 :: b2 :: b3 :: b4 :: b5 :: b6 :: b7 :: rest, _ =>
      ⟨b0, b1, b2, b3, b4, b5, b6, b7, rest, rfl⟩
  | [], h => by simp at h
  | [_], h => by simp at h
  | [_, _], h => by simp at h
  | [_, _, _], h => by simp at h
  | [_, _, _, _], h => by simp at h
  | [_, _, _, _, _], h => by simp at h
  | [_, _, _, _, _, _], h => by simp at h
  | [_, _, _, _, _, _, _], h => by simp at h

theorem adlerMain_correct : ∀ s1 s2 : Nat, ∀ l : List Nat,
    (∀ b ∈ l, b < 256) → l.length % 8 = 0 → s1 < adlerBase →
    ((adlerMain s1 s2 l).1 ≡ (rawAdler (s1, s2) l).1 [MOD adlerBase] ∧
     (adlerMain s1 s2 l).2 ≡ (rawAdler (s1, s2) l).2 [MOD adlerBase] ∧
     (adlerMain s1 s2 l).1 < adlerBase ∧
     (l ≠ [] → (adlerMain s1 s2 l).2 < adlerBase)) := by
  intro s1 s2 l
  induction s1, s2, l using adlerMain.induct with
  | case1 s1 s2 b0 b1 b2 b3 b4 b5 b6 b7 rest p ih =>
      intro hb h8 h1
      have hbl : ∀ b ∈ [b0, b1, b2, b3, b4, b5, b6, b7], b < 256 := by
        intro b hbm
        apply hb
        simp only [List.mem_cons] at hbm ⊢
        tauto
      have hrest8 : rest.length % 8 = 0 := by
        simp only [List.length_cons] at h8
        omega
      have hP1 : (rawAdler (s1, s2) [b0, b1, b2, b3, b4, b5, b6, b7]).1 ≤ s1 + 2040 := by
        rw [rawAdler_fst]
        have := sum_le_of_bytes [b0, b1, b2, b3, b4, b5, b6, b7] hbl
        simp at this ⊢
        omega
      have hs1lt : csub (rawAdler (s1, s2) [b0, b1, b2, b3, b4, b5, b6, b7]).1 < adlerBase := by
        apply csub_lt
        simp only [adlerBase] at h1 ⊢
        omega
      have hbrest : ∀ b ∈ rest, b < 256 := by
        intro b hbm
        apply hb
        simp only [List.mem_cons]
        tauto
      rw [adlerMain]
      have happ : rawAdler (s1, s2) (b0 :: b1 :: b2 :: b3 :: b4 :: b5 :: b6 :: b7 :: rest) =
          rawAdler (rawAdler (s1, s2) [b0, b1, b2, b3, b4, b5, b6, b7]) rest := by
        rw [← rawAdler_append]
        rfl
      have hmod2 : (if rest.length % 32768 = 0 then
            (rawAdler (s1, s2) [b0, b1, b2, b3, b4, b5, b6, b7]).2 % adlerBase
          else (rawAdler (s1, s2) [b0, b1, b2, b3, b4, b5, b6, b7]).2) ≡
          (rawAdler (s1, s2) [b0, b1, b2, b3, b4, b5, b6, b7]).2 [MOD adlerBase] := by
        split
        · exact Nat.mod_modEq _ _
        · exact Nat.ModEq.refl _
      have hcong := rawAdler_modeq rest
        (csub (rawAdler (s1, s2) [b0, b1, b2, b3, b4, b5, b6, b7]).1)
        (if rest.length % 32768 = 0 then
            (rawAdler (s1, s2) [b0, b1, b2, b3, b4, b5, b6, b7]).2 % adlerBase
          else (rawAdler (s1, s2) [b0, b1, b2, b3, b4, b5, b6, b7]).2)
        (rawAdler (s1, s2) [b0, b1, b2, b3, b4, b5, b6, b7]).1
        (rawAdler (s1, s2) [b0, b1, b2, b3, b4, b5, b6, b7]).2
        (csub_modeq _) hmod2
      have ihh := ih hbrest hrest8 hs1lt
      rw [happ]
      refine ⟨?_, ?_, ihh.2.2.1, ?_⟩
      · exact ihh.1.trans (hcong.1.trans (by rw [Prod.mk.eta]))
      · exact ihh.2.1.trans (hcong.2.trans (by rw [Prod.mk.eta]))
      · intro hne
        rcases List.eq_nil_or_concat rest with hr | hr
        · subst hr
          simp only [adlerMain]
          split
          · exact Nat.mod_lt _ (by simp [adlerBase])
          · simp at *
        · have hrne : rest ≠ [] := by
            rcases hr with ⟨a, b, hab⟩
            simp [hab]
          exact ihh.2.2.2 hrne
  | case2 l s1 s2 hno =>
      intro hb h8 h1
      have hlen : l.length < 8 := by
        by_contra hc
        rcases list_eight_split l (by omega) with ⟨b0, b1, b2, b3, b4, b5, b6, b7, rest, hr⟩
        exact hno b0 b1 b2 b3 b4 b5 b6 b7 rest hr
      have hnil : l = [] := by
        have : l.length = 0 := by omega
        exact List.eq_nil_of_length_eq_zero this
      subst hnil
      refine ⟨?_, ?_, h1, ?_⟩
      · exact Nat.ModEq.refl _
      · exact Nat.ModEq.refl _
      · intro hne
        simp at hne

theorem adlerCore_correct (s1 s2 : Nat) (l : List Nat)
    (hb : ∀ b ∈ l, b < 256) (h1 : s1 < adlerBase) (h2 : s2 < adlerBase) :
    (adlerCore s1 s2 l).1 = (rawAdler (s1, s2) l).1 % adlerBase ∧
    (adlerCore s1 s2 l).2 = (rawAdler (s1, s2) l).2 % adlerBase := by
  rw [adlerCore]
  split
  · rename_i h8
    have hm := adlerMain_correct s1 s2 l hb h8 h1
    rcases eq_or_ne l ([] : List Nat) with hl | hl
    · subst hl
      exact ⟨by simpa [adlerMain, rawAdler] using (Nat.mod_eq_of_lt h1).symm,
        by simpa [adlerMain, rawAdler] using (Nat.mod_eq_of_lt h2).symm⟩
    · exact ⟨eq_mod_of_modeq_lt _ _ _ hm.1 hm.2.2.1,
        eq_mod_of_modeq_lt _ _ _ hm.2.1 (hm.2.2.2 hl)⟩
  · rename_i h8
    have hbt : ∀ b ∈ l.take (l.length % 8), b < 256 :=
      fun b hbm => hb b (List.mem_of_mem_take hbm)
    have hbd : ∀ b ∈ l.drop (l.length % 8), b < 256 :=
      fun b hbm => hb b (List.mem_of_mem_drop hbm)
    have hd8 : (l.drop (l.length % 8)).length % 8 = 0 := by
      simp only [List.length_drop]
      omega
    have hP1 : (rawAdler (s1, s2) (l.take (l.length % 8))).1 ≤ s1 + 1785 := by
      rw [rawAdler_fst]
      have hs := sum_le_of_bytes _ hbt
      have hlt : (l.take (l.length % 8)).length ≤ 7 := by
        simp only [List.length_take]
        omega
      omega
    have hcs : csub (rawAdler (s1, s2) (l.take (l.length % 8))).1 < adlerBase := by
      apply csub_lt
      simp only [adlerBase] at h1 ⊢
      omega
    have hm := adlerMain_correct (csub (rawAdler (s1, s2) (l.take (l.length % 8))).1)
      ((rawAdler (s1, s2) (l.take (l.length % 8))).2 % adlerBase) (l.drop (l.length % 8))
      hbd hd8 hcs
    have hcong := rawAdler_modeq (l.drop (l.length % 8)) _ _ _ _
      (csub_modeq (rawAdler (s1, s2) (l.take (l.length % 8))).1)
      (Nat.mod_modEq (rawAdler (s1, s2) (l.take (l.length % 8))).2 adlerBase)
    have happ : rawAdler (rawAdler (s1, s2) (l.take (l.length % 8))) (l.drop (l.length % 8)) =
        rawAdler (s1, s2) l := by
      rw [← rawAdler_append, List.take_append_drop]
    have hA2 : (adlerMain (csub (rawAdler (s1, s2) (l.take (l.length % 8))).1)
        ((rawAdler (s1, s2) (l.take (l.length % 8))).2 % adlerBase)
        (l.drop (l.length % 8))).2 < adlerBase := by
      rcases eq_or_ne (l.drop (l.length % 8)) ([] : List Nat) with hd | hd
      · rw [hd]
        simp only [adlerMain]
        exact Nat.mod_lt _ (by simp [adlerBase])
      · exact hm.2.2.2 hd
    constructor
    · refine eq_mod_of_modeq_lt _ _ _ ?_ hm.2.2.1
      refine hm.1.trans (hcong.1.trans ?_)
      rw [Prod.mk.eta, happ]
    · refine eq_mod_of_modeq_lt _ _ _ ?_ hA2
      refine hm.2.1.trans (hcong.2.trans ?_)
      rw [Prod.mk.eta, happ]

theorem adler32_update_correct (c : adler32) (l : List Nat)
    (hb : ∀ b ∈ l, b < 256) (h1 : c.s1 < adlerBase) (h2 : c.s2 < adlerBase) :
    adler32.update c l =
      ⟨(rawAdler (c.s1, c.s2) l).1 % adlerBase, (rawAdler (c.s1, c.s2) l).2 % adlerBase⟩ := by
  have hc := adlerCore_correct c.s1 c.s2 l hb h1 h2
  have m1 : (rawAdler (c.s1, c.s2) l).1 % adlerBase < 65536 := by
    have := Nat.mod_lt (rawAdler (c.s1, c.s2) l).1 (show 0 < adlerBase by simp [adlerBase])
    simp only [adlerBase] at this ⊢
    omega
  have m2 : (rawAdler (c.s1, c.s2) l).2 % adlerBase < 65536 := by
    have := Nat.mod_lt (rawAdler (c.s1, c.s2) l).2 (show 0 < adlerBase by simp [adlerBase])
    simp only [adlerBase] at this ⊢
    omega
  rw [adler32.update]
  rw [hc.1, hc.2, Nat.mod_eq_of_lt m1, Nat.mod_eq_of_lt m2]

theorem adler32_update_inv (c : adler32) (l : List Nat)
    (hb : ∀ b ∈ l, b < 256) (h1 : c.s1 < adlerBase) (h2 : c.s2 < adlerBase) :
    (adler32.update c l).s1 < adlerBase ∧ (adler32.update c l).s2 < adlerBase := by
  rw [adler32_update_correct c l hb h1 h2]
  exact ⟨Nat.mod_lt _ (by simp [adlerBase]), Nat.mod_lt _ (by simp [adlerBase])⟩

theorem adler32_update_append (c : adler32) (xs ys : List Nat)
    (hbx : ∀ b ∈ xs, b < 256) (hby : ∀ b ∈ ys, b < 256)
    (h1 : c.s1 < adlerBase) (h2 : c.s2 < adlerBase) :
    adler32.update (adler32.update c xs) ys = adler32.update c (xs ++ ys) := by
  have hx := adler32_update_correct c xs hbx h1 h2
  have hinv := adler32_update_inv c xs hbx h1 h2
  have hy := adler32_update_correct (adler32.update c xs) ys hby hinv.1 hinv.2
  have hxy := adler32_update_correct c (xs ++ ys)
    (by
      intro b hbm
      rcases List.mem_append.mp hbm with h | h
      exacts [hbx b h, hby b h]) h1 h2
  rw [hy, hxy, hx]
  dsimp only
  rw [rawAdler_append]
  have hcong := rawAdler_modeq ys ((rawAdler (c.s1, c.s2) xs).1 % adlerBase)
    ((rawAdler (c.s1, c.s2) xs).2 % adlerBase)
    (rawAdler (c.s1, c.s2) xs).1 (rawAdler (c.s1, c.s2) xs).2
    (Nat.mod_modEq _ _) (Nat.mod_modEq _ _)
  have e1 : (rawAdler ((rawAdler (c.s1, c.s2) xs).1 % adlerBase,
      (rawAdler (c.s1, c.s2) xs).2 % adlerBase) ys).1 % adlerBase =
      (rawAdler (rawAdler (c.s1, c.s2) xs) ys).1 % adlerBase := by
    have := hcong.1
    rw [Prod.mk.eta] at this
    exact this
  have e2 : (rawAdler ((rawAdler (c.s1, c.s2) xs).1 % adlerBase,
      (rawAdler (c.s1, c.s2) xs).2 % adlerBase) ys).2 % adlerBase =
      (rawAdler (rawAdler (c.s1, c.s2) xs) ys).2 % adlerBase := by
    have := hcong.2
    rw [Prod.mk.eta] at this
    exact this
  rw [e1, e2]

theorem adler32_update_nil (c : adler32) (h1 : c.s1 < adlerBase) (h2 : c.s2 < adlerBase) :
    adler32.update c ([] : List Nat) = c := by
  rw [adler32_update_correct c [] (by simp) h1 h2]
  cases c with
  | mk a b =>
      simp only [rawAdler, List.foldl]
      simp only at h1 h2
      rw [Nat.mod_eq_of_lt h1, Nat.mod_eq_of_lt h2]

theorem foldl_update_eq_join : ∀ (chunks : List (List Nat)) (c : adler32),
    (∀ ch ∈ chunks, ∀ b ∈ ch, b < 256) → c.s1 < adlerBase → c.s2 < adlerBase →
    List.foldl adler32.update c chunks = adler32.update c chunks.flatten := by
  intro chunks
  induction chunks with
  | nil =>
      intro c _ h1 h2
      simp only [List.foldl_nil, List.flatten_nil]
      exact (adler32_update_nil c h1 h2).symm
  | cons x xs ih =>
      intro c hball h1 h2
      have hbx := hball x (List.mem_cons_self _ _)
      have hinv := adler32_update_inv c x hbx h1 h2
      have hbj : ∀ b ∈ xs.flatten, b < 256 := by
        intro b hbm
        rcases List.mem_flatten.mp hbm with ⟨ch, hch, hbch⟩
        exact hball ch (List.mem_cons_of_mem _ hch) b hbch
      rw [List.foldl_cons, List.flatten_cons,
        ih (adler32.update c x) (fun ch hch => hball ch (List.mem_cons_of_mem _ hch))
          hinv.1 hinv.2]
      exact adler32_update_append c x xs.flatten hbx hbj h1 h2

/-- C7: feeding the chunks of any partition of a byte sequence through
adler32::update in order, starting from the initial state (1, 0), yields
the same state and the same final checksum as a single update call on the
whole sequence. -/
theorem adler32_chunked_update (chunks : List (List Nat))
    (hb : ∀ ch ∈ chunks, ∀ b ∈ ch, b < 256) :
    List.foldl adler32.update adler32.init chunks =
      adler32.update adler32.init chunks.flatten ∧
    (List.foldl adler32.update adler32.init chunks).finalize =
      (adler32.update adler32.init chunks.flatten).finalize := by
  have h := foldl_update_eq_join chunks adler32.init hb
    (by simp [adler32.init, adlerBase]) (by simp [adler32.init, adlerBase])
  exact ⟨h, by rw [h]⟩

/-- Witness for C7: splitting the bytes of abc as a then bc gives the same
state as one call, and the final checksum is the reference 0x024D0127. -/
theorem adler32_chunked_update_witness :
    List.foldl adler32.update adler32.init [[0x61], [0x62, 0x63]] =
      adler32.update adler32.init [0x61, 0x62, 0x63] ∧
    (adler32.update adler32.init [0x61, 0x62, 0x63]).finalize = 0x024D0127 := by
  have h := adler32_chunked_update [[0x61], [0x62, 0x63]] (by decide)
  exact ⟨h.1.trans (by decide), by decide⟩

theorem rawAdlerM_agree (l : List Nat) (p : Nat × Nat × Nat) :
    (rawAdlerM p l).1 = (rawAdler (p.1, p.2.1) l).1 ∧
    (rawAdlerM p l).2.1 = (rawAdler (p.1, p.2.1) l).2 := by
  induction l generalizing p with
  | nil => exact ⟨rfl, rfl⟩
  | cons b r ih =>
      have h := ih (adlerByteM p b)
      exact ⟨h.1, h.2⟩

theorem rawAdlerM_mx_mono (l : List Nat) (p : Nat × Nat × Nat) :
    p.2.2 ≤ (rawAdlerM p l).2.2 := by
  induction l generalizing p with
  | nil => exact le_refl _
  | cons b r ih =>
      have h := ih (adlerByteM p b)
      refine le_trans ?_ h
      simp [adlerByteM]

theorem rawAdlerM_max_le (l : List Nat) (p : Nat × Nat × Nat) :
    (rawAdlerM p l).2.2 ≤ max p.2.2 (max (rawAdlerM p l).1 (rawAdlerM p l).2.1) := by
  induction l generalizing p with
  | nil => simp [rawAdlerM]
  | cons b r ih =>
      have h := ih (adlerByteM p b)
      have hag := rawAdlerM_agree r (adlerByteM p b)
      have hmono := rawAdler_mono r ((adlerByteM p b).1, (adlerByteM p b).2.1)
      have hstep : rawAdlerM p (b :: r) = rawAdlerM (adlerByteM p b) r := rfl
      rw [hstep]
      have e1 : (adlerByteM p b).1 ≤ (rawAdlerM (adlerByteM p b) r).1 := by
        rw [hag.1]
        exact hmono.1
      have e2 : (adlerByteM p b).2.1 ≤ (rawAdlerM (adlerByteM p b) r).2.1 := by
        rw [hag.2]
        exact hmono.2
      have hb : (adlerByteM p b).2.2 = max p.2.2 (max (adlerByteM p b).1 (adlerByteM p b).2.1) :=
        rfl
      omega

theorem adlerMainM_agree : ∀ s1 s2 mx : Nat, ∀ l : List Nat,
    (adlerMainM s1 s2 mx l).1 = (adlerMain s1 s2 l).1 ∧
    (adlerMainM s1 s2 mx l).2.1 = (adlerMain s1 s2 l).2 := by
  intro s1 s2 mx l
  induction s1, s2, mx, l using adlerMainM.induct with
  | case1 s1 s2 mx b0 b1 b2 b3 b4 b5 b6 b7 rest p ih =>
      have hag := rawAdlerM_agree [b0, b1, b2, b3, b4, b5, b6, b7] (s1, s2, mx)
      rw [adlerMainM, adlerMain]
      rw [show ((s1, s2, mx).1, (s1, s2, mx).2.1) = (s1, s2) from rfl] at hag
      rw [hag.1, hag.2] at ih
      exact ih
  | case2 t s1 s2 mx hno =>
      have h1 : adlerMainM s1 s2 mx t = (s1, s2, mx) := by
        rw [adlerMainM]
        exact hno
      have h2 : adlerMain s1 s2 t = (s1, s2) := by
        rw [adlerMain]
        exact hno
      rw [h1, h2]
      exact ⟨rfl, rfl⟩

theorem adlerMainM_bound : ∀ s1 s2 mx : Nat, ∀ l : List Nat,
    (∀ b ∈ l, b < 256) → l.length % 8 = 0 → s1 < adlerBase →
    s2 ≤ 65520 + (32768 - l.length % 32768) % 32768 / 8 * 540480 →
    mx < 2 ^ 32 →
    (adlerMainM s1 s2 mx l).2.2 < 2 ^ 32 := by
  intro s1 s2 mx l
  induction s1, s2, mx, l using adlerMainM.induct with
  | case1 s1 s2 mx b0 b1 b2 b3 b4 b5 b6 b7 rest p ih =>
      intro hb h8 h1 h2 hmx
      have hb0 := hb b0 (by simp)
      have hb1 := hb b1 (by simp)
      have hb2 := hb b2 (by simp)
      have hb3 := hb b3 (by simp)
      have hb4 := hb b4 (by simp)
      have hb5 := hb b5 (by simp)
      have hb6 := hb b6 (by simp)
      have hb7 := hb b7 (by simp)
      have hag := rawAdlerM_agree [b0, b1, b2, b3, b4, b5, b6, b7] (s1, s2, mx)
      rw [show ((s1, s2, mx).1, (s1, s2, mx).2.1) = (s1, s2) from rfl] at hag
      have hraw1 : (rawAdler (s1, s2) [b0, b1, b2, b3, b4, b5, b6, b7]).1 =
          s1 + (b0 + b1 + b2 + b3 + b4 + b5 + b6 + b7) := by
        rw [rawAdler_fst]
        simp
        omega
      have hraw2 := rawAdler_snd_le [b0, b1, b2, b3, b4, b5, b6, b7] (s1, s2)
      have hpm := rawAdlerM_max_le [b0, b1, b2, b3, b4, b5, b6, b7] (s1, s2, mx)
      have hp : p = rawAdlerM (s1, s2, mx) [b0, b1, b2, b3, b4, b5, b6, b7] := rfl
      obtain ⟨Q, hQ⟩ : ∃ Q, rawAdler (s1, s2) [b0, b1, b2, b3, b4, b5, b6, b7] = Q :=
        ⟨_, rfl⟩
      rw [← hp] at hag hpm
      rw [hQ] at hag hraw1 hraw2
      simp at hraw2 hpm
      rw [adlerMainM, ← hp]
      clear_value p
      clear hp
      simp only [List.length_cons] at h8 h2
      have hrest8 : rest.length % 8 = 0 := by omega
      have hrestb : ∀ b ∈ rest, b < 256 := by
        intro b hbm
        apply hb
        simp only [List.mem_cons]
        tauto
      apply ih hrestb hrest8
      · apply csub_lt
        simp only [adlerBase] at h1 ⊢
        omega
      · split
        · rename_i hz
          have := Nat.mod_lt p.2.1 (show 0 < adlerBase by simp [adlerBase])
          simp only [adlerBase] at this ⊢
          simp only [hz]
          omega
        · rename_i hz
          simp only [adlerBase] at h1
          omega
      · simp only [adlerBase] at h1
        omega
  | case2 t s1 s2 mx hno =>
      intro hb h8 h1 h2 hmx
      have h0 : adlerMainM s1 s2 mx t = (s1, s2, mx) := by
        rw [adlerMainM]
        exact hno
      rw [h0]
      exact hmx

theorem adlerCoreM_agree (s1 s2 mx : Nat) (l : List Nat) :
    ((adlerCoreM s1 s2 mx l).1, (adlerCoreM s1 s2 mx l).2.1) = adlerCore s1 s2 l := by
  rw [adlerCoreM, adlerCore]
  split
  · have h := adlerMainM_agree s1 s2 mx l
    rw [Prod.ext_iff]
    exact ⟨h.1, h.2⟩
  · have hag := rawAdlerM_agree (l.take (l.length % 8)) (s1, s2, mx)
    rw [show ((s1, s2, mx).1, (s1, s2, mx).2.1) = (s1, s2) from rfl] at hag
    have h := adlerMainM_agree
      (csub (rawAdlerM (s1, s2, mx) (l.take (l.length % 8))).1)
      ((rawAdlerM (s1, s2, mx) (l.take (l.length % 8))).2.1 % adlerBase)
      ((rawAdlerM (s1, s2, mx) (l.take (l.length % 8))).2.2)
      (l.drop (l.length % 8))
    rw [hag.1, hag.2] at h
    dsimp only
    rw [hag.1, hag.2, Prod.ext_iff]
    exact ⟨h.1, h.2⟩

theorem adlerCoreM_bound (s1 s2 : Nat) (l : List Nat)
    (hb : ∀ b ∈ l, b < 256) (h1 : s1 < adlerBase) (h2 : s2 < adlerBase) :
    (adlerCoreM s1 s2 (max s1 s2) l).2.2 < 2 ^ 32 := by
  rw [adlerCoreM]
  split
  · rename_i h8
    apply adlerMainM_bound s1 s2 (max s1 s2) l hb h8 h1
    · simp only [adlerBase] at h2
      omega
    · simp only [adlerBase] at h1 h2
      omega
  · rename_i h8
    have hbt : ∀ b ∈ l.take (l.length % 8), b < 256 :=
      fun b hbm => hb b (List.mem_of_mem_take hbm)
    have hbd : ∀ b ∈ l.drop (l.length % 8), b < 256 :=
      fun b hbm => hb b (List.mem_of_mem_drop hbm)
    have hd8 : (l.drop (l.length % 8)).length % 8 = 0 := by
      simp only [List.length_drop]
      omega
    have hag := rawAdlerM_agree (l.take (l.length % 8)) (s1, s2, max s1 s2)
    rw [show ((s1, s2, max s1 s2).1, (s1, s2, max s1 s2).2.1) = (s1, s2) from rfl] at hag
    have hlen : (l.take (l.length % 8)).length ≤ 7 := by
      simp only [List.length_take]
      omega
    have hq1 : (rawAdler (s1, s2) (l.take (l.length % 8))).1 ≤ s1 + 1785 := by
      rw [rawAdler_fst]
      have hs := sum_le_of_bytes _ hbt
      omega
    have hraw2 := rawAdler_snd_le (l.take (l.length % 8)) (s1, s2)
    have hmul : (l.take (l.length % 8)).length *
        (rawAdler (s1, s2) (l.take (l.length % 8))).1 ≤ 7 * (s1 + 1785) :=
      Nat.mul_le_mul hlen hq1
    have hpm := rawAdlerM_max_le (l.take (l.length % 8)) (s1, s2, max s1 s2)
    rw [hag.1, hag.2] at hpm
    dsimp only at hpm
    apply adlerMainM_bound
    · exact hbd
    · exact hd8
    · rw [hag.1]
      apply csub_lt
      simp only [adlerBase] at h1 ⊢
      omega
    · rw [hag.2]
      have := Nat.mod_lt (rawAdler (s1, s2) (l.take (l.length % 8))).2
        (show 0 < adlerBase by simp [adlerBase])
      simp only [adlerBase] at this ⊢
      omega
    · simp only [adlerBase] at h1 h2
      simp only at hraw2
      omega

/-- C9: adler32::update preserves the invariant that both stored state
halves are fully reduced: from a state with both sums below 65521 (as
holds from the initial state (1, 0)) both stay below 65521 after an
update of any length, despite the deferred reductions, and no
intermediate sum of the computation ever reaches the 32-bit range: the
instrumented maximum tracker, which agrees with the plain computation,
stays below 2^32. -/
theorem adler32_update_preserves_reduction (c : adler32) (l : List Nat)
    (hb : ∀ b ∈ l, b < 256) (h1 : c.s1 < adlerBase) (h2 : c.s2 < adlerBase) :
    (adler32.update c l).s1 < adlerBase ∧ (adler32.update c l).s2 < adlerBase ∧
    ((adlerCoreM c.s1 c.s2 (max c.s1 c.s2) l).1,
      (adlerCoreM c.s1 c.s2 (max c.s1 c.s2) l).2.1) = adlerCore c.s1 c.s2 l ∧
    (adlerCoreM c.s1 c.s2 (max c.s1 c.s2) l).2.2 < 2 ^ 32 := by
  have hi := adler32_update_inv c l hb h1 h2
  exact ⟨hi.1, hi.2, adlerCoreM_agree c.s1 c.s2 (max c.s1 c.s2) l,
    adlerCoreM_bound c.s1 c.s2 l hb h1 h2⟩

/-- Witness for C9 on the initial state and the bytes of abc: the updated
halves are reduced and the tracked maximum is far below 2^32. -/
theorem adler32_update_preserves_reduction_witness :
    (adler32.update adler32.init [0x61, 0x62, 0x63]).s1 < adlerBase ∧
    (adlerCoreM 1 0 (max 1 0) [0x61, 0x62, 0x63]).2.2 < 2 ^ 32 := by
  have h := adler32_update_preserves_reduction adler32.init [0x61, 0x62, 0x63]
    (by decide) (by decide) (by decide)
  exact ⟨h.1, h.2.2.2⟩

/-! ## Warnings and state preservation of the PE locator -/

theorem readBytes_w (n : Nat) (s : Strm) : (readBytes n s).2.warnings = s.warnings := by
  rw [readBytes]
  split
  · rfl
  · split <;> rfl

theorem readBytes_d (n : Nat) (s : Strm) : (readBytes n s).2.data = s.data := by
  rw [readBytes]
  split
  · rfl
  · split <;> rfl

theorem seekAbs_w (p : Nat) (s : Strm) : (seekAbs p s).warnings = s.warnings := by
  rw [seekAbs]
  split <;> rfl

theorem seekAbs_d (p : Nat) (s : Strm) : (seekAbs p s).data = s.data := by
  rw [seekAbs]
  split <;> rfl

theorem skip_w (n : Nat) (s : Strm) : (skip n s).warnings = s.warnings := by
  rw [skip]
  split <;> rfl

theorem skip_d (n : Nat) (s : Strm) : (skip n s).data = s.data := by
  rw [skip]
  split <;> rfl

theorem loadU16_w (s : Strm) : (loadU16 s).2.warnings = s.warnings := readBytes_w 2 s

theorem loadU16_d (s : Strm) : (loadU16 s).2.data = s.data := readBytes_d 2 s

theorem loadU32_w (s : Strm) : (loadU32 s).2.warnings = s.warnings := readBytes_w 4 s

theorem loadU32_d (s : Strm) : (loadU32 s).2.data = s.data := readBytes_d 4 s

theorem load_header_w (s : Strm) :
    (load_header s).2.warnings = s.warnings ∧ (load_header s).2.data = s.data := by
  rw [load_header]
  dsimp only
  split_ifs <;>
    simp [readBytes_w, readBytes_d, seekAbs_w, seekAbs_d, skip_w, skip_d,
      loadU16_w, loadU16_d, loadU32_w, loadU32_d]

theorem load_section_w (s : Strm) :
    (load_section s).2.warnings = s.warnings ∧ (load_section s).2.data = s.data := by
  rw [load_section]
  dsimp only
  simp [seekAbs_w, seekAbs_d, skip_w, skip_d, loadU32_w, loadU32_d]

theorem load_sections_w : ∀ (n : Nat) (s : Strm),
    (load_sections n s).2.warnings = s.warnings ∧ (load_sections n s).2.data = s.data := by
  intro n
  induction n with
  | zero => exact fun s => ⟨rfl, rfl⟩
  | succ k ih =>
      intro s
      rw [load_sections]
      dsimp only
      have h1 := load_section_w s
      have h2 := ih (load_section s).2
      exact ⟨by rw [h2.1, h1.1], by rw [h2.2, h1.2]⟩

theorem load_section_list_w (coff : PeHeader) (s : Strm) :
    (load_section_list coff s).2.warnings = s.warnings ∧
    (load_section_list coff s).2.data = s.data := by
  rw [load_section_list]
  dsimp only
  have h1 := seekAbs_w coff.section_table_offset s
  have h1d := seekAbs_d coff.section_table_offset s
  have h2 := load_sections_w coff.nsections (seekAbs coff.section_table_offset s)
  exact ⟨by rw [h2.1, h1], by rw [h2.2, h1d]⟩

theorem find_entry_loop_w : ∀ (n needle : Nat) (s : Strm),
    (find_entry_loop n needle s).2.warnings = s.warnings ∧
    (find_entry_loop n needle s).2.data = s.data := by
  intro n
  induction n with
  | zero => exact fun needle s => ⟨rfl, rfl⟩
  | succ k ih =>
      intro needle s
      rw [find_entry_loop]
      have h1 := loadU32_w s
      have h1d := loadU32_d s
      have h2 := loadU32_w (loadU32 s).2
      have h2d := loadU32_d (loadU32 s).2
      have h3 := ih needle (loadU32 (loadU32 s).2).2
      split_ifs <;>
        exact ⟨by simp [h3.1, h2, h1], by simp [h3.2, h2d, h1d]⟩

theorem find_resource_entry_w (needle : Nat) (s : Strm) :
    (find_resource_entry needle s).2.warnings = s.warnings ∧
    (find_resource_entry needle s).2.data = s.data := by
  rw [find_resource_entry]
  dsimp only
  have h1 := skip_w 12 s
  have h1d := skip_d 12 s
  have h2 := loadU16_w (skip 12 s)
  have h2d := loadU16_d (skip 12 s)
  have h3 := loadU16_w (loadU16 (skip 12 s)).2
  have h3d := loadU16_d (loadU16 (skip 12 s)).2
  have h4 := skip_w ((loadU16 (skip 12 s)).1 * 8) (loadU16 (loadU16 (skip 12 s)).2).2
  have h4d := skip_d ((loadU16 (skip 12 s)).1 * 8) (loadU16 (loadU16 (skip 12 s)).2).2
  have h5 := find_entry_loop_w (loadU16 (loadU16 (skip 12 s)).2).1 needle
    (skip ((loadU16 (skip 12 s)).1 * 8) (loadU16 (loadU16 (skip 12 s)).2).2)
  split_ifs <;>
    exact ⟨by simp [h5.1, h4, h3, h2, h1], by simp [h5.2, h4d, h3d, h2d, h1d]⟩


/-- C4 amended: find_resource returns offset 0 and size 0 exactly in the
failure cases enumerated by findResourceFails — missing or unreadable PE
magic, data-directory count below 3, zero resource-table RVA or size, a
failed section-table read, an RVA translating to file offset 0 (no
covering section or a genuine zero offset), a type- or name-level lookup
that does not yield a sub-directory entry (id absent, short read, or high
bit clear), a language-level entry that is 0 or marks a sub-directory
where a leaf was required, or a failed leaf read — and in every case
nothing is logged. -/
theorem find_resource_not_found_iff (s0 : Strm) (nm ty lg : Nat) :
    (find_resource s0 nm ty lg).2.warnings = s0.warnings ∧
    ((find_resource s0 nm ty lg).1 = ⟨0, 0⟩ ↔ findResourceFails s0 nm ty lg = true) := by
  rw [find_resource, findResourceFails]
  rcases hH : load_header (seekAbs 0 s0) with ⟨oh, s1⟩
  have hw1 : s1.warnings = s0.warnings := by
    have h := (load_header_w (seekAbs 0 s0)).1
    rw [hH] at h
    simpa [seekAbs_w] using h
  dsimp only
  cases oh with
  | none => simp [hw1]
  | some coff =>
      dsimp only
      rcases hSL : load_section_list coff s1 with ⟨osl, s2⟩
      have hw2 : s2.warnings = s0.warnings := by
        have h := (load_section_list_w coff s1).1
        rw [hSL] at h
        simpa [hw1] using h
      dsimp only
      cases osl with
      | none => simp [hw2]
      | some sections =>
          dsimp only
          by_cases hro : to_file_offset sections coff.resource_table_address = 0
          · simp [hro, hw2]
          · rw [if_neg hro, if_neg hro]
            rcases hT : find_resource_entry ty
              (seekAbs (to_file_offset sections coff.resource_table_address) s2) with ⟨te, s3⟩
            have hw3 : s3.warnings = s0.warnings := by
              have h := (find_resource_entry_w ty
                (seekAbs (to_file_offset sections coff.resource_table_address) s2)).1
              rw [hT] at h
              simpa [seekAbs_w, hw2] using h
            dsimp only
            by_cases hgt : (get_resource_table te
                (to_file_offset sections coff.resource_table_address)).1 = false
            · simp [hgt, hw3]
            · rw [if_neg hgt, if_neg hgt]
              rcases hN : find_resource_entry nm (seekAbs (get_resource_table te
                (to_file_offset sections coff.resource_table_address)).2 s3) with ⟨ne, s4⟩
              have hw4 : s4.warnings = s0.warnings := by
                have h := (find_resource_entry_w nm (seekAbs (get_resource_table te
                  (to_file_offset sections coff.resource_table_address)).2 s3)).1
                rw [hN] at h
                simpa [seekAbs_w, hw3] using h
              dsimp only
              by_cases hgn : (get_resource_table ne
                  (to_file_offset sections coff.resource_table_address)).1 = false
              · simp [hgn, hw4]
              · rw [if_neg hgn, if_neg hgn]
                rcases hL : find_resource_entry lg (seekAbs (get_resource_table ne
                  (to_file_offset sections coff.resource_table_address)).2 s4) with ⟨le, s5⟩
                have hw5 : s5.warnings = s0.warnings := by
                  have h := (find_resource_entry_w lg (seekAbs (get_resource_table ne
                    (to_file_offset sections coff.resource_table_address)).2 s4)).1
                  rw [hL] at h
                  simpa [seekAbs_w, hw4] using h
                dsimp only
                by_cases hle : le = 0 ∨ (get_resource_table le
                    (to_file_offset sections coff.resource_table_address)).1 = true
                · rw [if_pos hle, if_pos hle]
                  simp [hw5]
                · rw [if_neg hle, if_neg hle]
                  rcases hDA : loadU32 (seekAbs (get_resource_table le
                    (to_file_offset sections coff.resource_table_address)).2 s5) with ⟨da, s6⟩
                  have hw6 : s6.warnings = s0.warnings := by
                    have h := loadU32_w (seekAbs (get_resource_table le
                      (to_file_offset sections coff.resource_table_address)).2 s5)
                    rw [hDA] at h
                    simpa [seekAbs_w, hw5] using h
                  dsimp only
                  rcases hDS : loadU32 s6 with ⟨ds, s7⟩
                  have hw7 : s7.warnings = s0.warnings := by
                    have h := loadU32_w s6
                    rw [hDS] at h
                    simpa [hw6] using h
                  dsimp only
                  by_cases hf : s7.failed = true
                  · simp [hf, hw7]
                  · simp only [hf, if_false, Bool.false_eq_true]
                    by_cases hdo : to_file_offset sections da = 0
                    · simp [hdo, hw7]
                    · simp [hdo, hw7, PeResource.mk.injEq]

set_option maxRecDepth 8000 in
/-- C4 counterexample: on the concrete image c4data with a valid PE magic,
3 data directories, nonzero resource RVA and size, a section covering the
translated resource RVA, and a present type id, find_resource still
returns offset 0 and size 0: the type-level entry (value 0x18) has its
high bit clear, a failure case missing from the claim's list. -/
theorem find_resource_exactness_counterexample :
    (find_resource ⟨c4data, 0, false, 0⟩ 1 10 0).1 = ⟨0, 0⟩ ∧
    (readBytes 4 (seekAbs 0x40 ⟨c4data, 0, false, 0⟩)).1 = [0x50, 0x45, 0, 0] ∧
    (loadU32 (seekAbs 0xB4 ⟨c4data, 0, false, 0⟩)).1 = 3 ∧
    (loadU32 (seekAbs 0xC8 ⟨c4data, 0, false, 0⟩)).1 = 0x1000 ∧
    (loadU32 (seekAbs 0xCC ⟨c4data, 0, false, 0⟩)).1 = 0x100 ∧
    to_file_offset [⟨0x1000, 0x1000, 0x100⟩] 0x1000 = 0x100 ∧
    (load_header (seekAbs 0 ⟨c4data, 0, false, 0⟩)).1 = some ⟨1, 0xD0, 0x1000⟩ ∧
    (load_section_list ⟨1, 0xD0, 0x1000⟩
      (load_header (seekAbs 0 ⟨c4data, 0, false, 0⟩)).2).1 = some [⟨0x1000, 0x1000, 0x100⟩] ∧
    (find_resource_entry 10 (seekAbs 0x100 (load_section_list ⟨1, 0xD0, 0x1000⟩
      (load_header (seekAbs 0 ⟨c4data, 0, false, 0⟩)).2).2)).1 = 0x18 ∧
    (0x18 : Nat) ≠ 0 ∧ (0x18 : Nat) < 2 ^ 31 := by
  refine ⟨by decide, by decide, by decide, by decide, by decide, by decide, by decide,
    by decide, by decide, by decide, by decide⟩

/-- C10: to_file_offset uses 0 both as the not-found sentinel and as a
possible genuine file offset: when the whole resource walk succeeds but
the leaf data RVA translates to file offset 0 — even when a section (with
raw_address 0) genuinely covers that RVA — find_resource returns offset 0
and size 0 as if the resource did not exist. -/
theorem find_resource_zero_offset_collision
    (s0 : Strm) (nm ty lg : Nat) (coff : PeHeader) (sections : List PeSection)
    (s1 s2 s3 s4 s5 s6 s7 : Strm) (ro te ne le da ds : Nat) (S : PeSection)
    (h1 : load_header (seekAbs 0 s0) = (some coff, s1))
    (h2 : load_section_list coff s1 = (some sections, s2))
    (h3 : to_file_offset sections coff.resource_table_address = ro)
    (h3n : ro ≠ 0)
    (h4 : find_resource_entry ty (seekAbs ro s2) = (te, s3))
    (h4t : 2 ^ 31 ≤ te)
    (h5 : find_resource_entry nm (seekAbs ((te % 2 ^ 31 + ro) % 2 ^ 32) s3) = (ne, s4))
    (h5t : 2 ^ 31 ≤ ne)
    (h6 : find_resource_entry lg (seekAbs ((ne % 2 ^ 31 + ro) % 2 ^ 32) s4) = (le, s5))
    (h6n : le ≠ 0) (h6t : le < 2 ^ 31)
    (h7 : loadU32 (seekAbs ((le % 2 ^ 31 + ro) % 2 ^ 32) s5) = (da, s6))
    (h8 : loadU32 s6 = (ds, s7))
    (h8f : s7.failed = false)
    (h9 : S ∈ sections)
    (h9c : S.virtual_address ≤ da ∧ da < (S.virtual_address + S.virtual_size) % 2 ^ 32)
    (h10 : to_file_offset sections da = 0) :
    (find_resource s0 nm ty lg).1 = ⟨0, 0⟩ := by
  rw [find_resource, h1]
  dsimp only
  rw [h2]
  dsimp only
  rw [h3, if_neg h3n, h4]
  dsimp only
  rw [get_resource_table]
  rw [if_neg (by simp; omega)]
  dsimp only
  rw [h5]
  dsimp only
  rw [get_resource_table]
  rw [if_neg (by simp; omega)]
  dsimp only
  rw [h6]
  dsimp only
  rw [get_resource_table]
  rw [if_neg (by simp; omega)]
  dsimp only
  rw [h7]
  dsimp only
  rw [h8]
  dsimp only
  rw [if_neg (by simp [h8f])]
  rw [h10]
  rfl

set_option maxRecDepth 8000 in
/-- Witness for C10 on the concrete image c10data: the full walk succeeds,
the second section (virtual address 0x2000, raw address 0) covers the leaf
data RVA 0x2000, the translated offset is 0, and find_resource reports
not-found. -/
theorem find_resource_zero_offset_collision_witness :
    (find_resource ⟨c10data, 0, false, 0⟩ 1 10 0).1 = ⟨0, 0⟩ :=
  find_resource_zero_offset_collision ⟨c10data, 0, false, 0⟩ 1 10 0
    ⟨2, 0xD0, 0x1000⟩ [⟨0x1000, 0x1000, 0x140⟩, ⟨0x100, 0x2000, 0⟩]
    ⟨c10data, 0xD0, false, 0⟩ ⟨c10data, 0x120, false, 0⟩ ⟨c10data, 0x158, false, 0⟩
    ⟨c10data, 0x188, false, 0⟩ ⟨c10data, 0x1A8, false, 0⟩ ⟨c10data, 0x1B4, false, 0⟩
    ⟨c10data, 0x1B8, false, 0⟩
    0x140 0x80000030 0x80000050 0x70 0x2000 0x99 ⟨0x100, 0x2000, 0⟩
    (by decide) (by decide) (by decide) (by decide) (by decide) (by decide)
    (by decide) (by decide) (by decide) (by decide) (by decide) (by decide)
    (by decide) (by decide) (by decide) (by decide) (by decide)
